import Mathlib

/-!
Verification development for the comserde binary serialization package.

The Python modules are shallowly embedded as follows:

* bytes are lists of naturals (each element of a real Python bytes object
  lies in 0..255);
* a byte stream is a Source: either an in-memory io.BytesIO buffer with a
  read position, or an instance of the Decoder class from decoder.py;
* fallible operations return Except PyError, whose constructors name the
  Python exception classes that the code can raise;
* loops are made structurally recursive with an explicit fuel argument
  whenever they do not descend a data structure; the wrappers pass a fuel
  value that provably exceeds the number of iterations (each iteration of
  those loops consumes at least one byte from the stream).

The formats f32/f64, utf-8/utf-16, json, object and pickle are not
embedded: they delegate to IEEE-754 arithmetic and to external text/JSON/
pickle codecs which the specification treats as out-of-scope collaborators.
-/

namespace Comserde

/-- Python exception kinds raised by the package. nonTermination records an
infinite loop (write_vlq applied to a negative integer never terminates). -/
inductive PyError where
  | decodingError
  | deserializationError
  | deserializationEOFError
  | indexError
  | typeError
  | attributeError
  | valueError
  | structError
  | nonTermination
  deriving DecidableEq, Repr

/-- Decidable equality for Except results, so that concrete runs of the
embedded codec can be checked by evaluation. -/
instance exceptDecEq {ε α : Type} [DecidableEq ε] [DecidableEq α] :
    DecidableEq (Except ε α)
  | .error e, .error f =>
    match decEq e f with
    | isTrue h => isTrue (by rw [h])
    | isFalse h => isFalse (by intro hh; injection hh; contradiction)
  | .error _, .ok _ => isFalse (by intro hh; exact Except.noConfusion hh)
  | .ok _, .error _ => isFalse (by intro hh; exact Except.noConfusion hh)
  | .ok x, .ok y =>
    match decEq x y with
    | isTrue h => isTrue (by rw [h])
    | isFalse h => isFalse (by intro hh; injection hh; contradiction)

/-- Python values handled by the embedded codec. The unit constructor stands
for the empty tuple returned when decoding the void format. -/
inductive PyValue where
  | none
  | bool (b : Bool)
  | int (n : Int)
  | bytes (bs : List Nat)
  | unit
  deriving DecidableEq, Repr

/-- Byte sources. buffer models io.BytesIO over an immutable byte string
with a read position. decoder models an instance of the Decoder class from
decoder.py: that class defines read_bytes/read_nt_bytes/read_struct/read_vlq
methods but no read method, so calling read on it raises AttributeError. -/
inductive Source where
  | buffer (data : List Nat) (pos : Nat)
  | decoder (data : List Nat) (index : Nat)
  deriving DecidableEq, Repr

/-- Result of file.read(n): BytesIO returns up to n bytes and advances its
position by the number of bytes actually returned; the Decoder object has no
read attribute, so the call raises AttributeError and changes nothing. -/
def Source.read : Source → Nat → Except PyError (List Nat) × Source
  | .buffer data pos, n =>
      let chunk := (data.drop pos).take n
      (.ok chunk, .buffer data (pos + chunk.length))
  | s, _ => (.error .attributeError, s)

/-- file.tell(): the current read position. -/
def Source.tell : Source → Nat
  | .buffer _ pos => pos
  | .decoder _ index => index

/-- Number of bytes left to read. -/
def Source.remaining : Source → Nat
  | .buffer data pos => data.length - pos
  | .decoder data index => data.length - index

/-- decoding.read_bytes: file.read(length), raising DecodingError when fewer
bytes than requested come back. -/
def read_bytes (length : Nat) (s : Source) : Except PyError (List Nat) × Source :=
  match s.read length with
  | (.ok data, s₁) =>
      if data.length = length then (.ok data, s₁) else (.error .decodingError, s₁)
  | (.error e, s₁) => (.error e, s₁)

/-- Loop body of decoding.read_nt_bytes: read single bytes until a 0x00
terminator; a read that returns no bytes means the buffer ended without a
terminator, which raises DecodingError. The fuel argument only bounds the
iteration count; the wrapper passes one more than the remaining byte count,
which the loop can never exhaust since every iteration consumes a byte. -/
def read_nt_bytes_go : Nat → Source → List Nat → Except PyError (List Nat) × Source
  | 0, s, _ => (.error .decodingError, s)
  | fuel + 1, s, acc =>
      match s.read 1 with
      | (.ok [], s₁) => (.error .decodingError, s₁)
      | (.ok (b :: _), s₁) =>
          if b = 0 then (.ok acc, s₁) else read_nt_bytes_go fuel s₁ (acc ++ [b])
      | (.error e, s₁) => (.error e, s₁)

/-- decoding.read_nt_bytes. -/
def read_nt_bytes (s : Source) : Except PyError (List Nat) × Source :=
  read_nt_bytes_go (s.remaining + 1) s []

/-- int.to_bytes(length, byteorder little). -/
def to_bytes_le : Nat → Nat → List Nat
  | 0, _ => []
  | k + 1, v => (v &&& 0xff) :: to_bytes_le k (v >>> 8)

/-- int.from_bytes(data, byteorder little). -/
def from_bytes_le : List Nat → Nat
  | [] => 0
  | b :: bs => b + 256 * from_bytes_le bs

/-- Loop body of vlq.write_vlq: emit 7 value bits per byte, little-endian
first, setting the 0x80 continuation flag on every byte except the last.
The wrapper passes fuel value + 1, which exceeds the iteration count because
the running value shrinks by a factor of 128 every iteration. -/
def write_vlq_go : Nat → Nat → List Nat
  | 0, _ => []
  | fuel + 1, current_value =>
      let byte_value := current_value &&& 0x7f
      let rest := current_value >>> 7
      if rest < 1 then [byte_value]
      else (byte_value ||| 0x80) :: write_vlq_go fuel rest

/-- vlq.write_vlq on a non-negative integer (on a negative integer the
Python loop never terminates; the primitive layer records that case). -/
def write_vlq (value : Nat) : List Nat :=
  write_vlq_go (value + 1) value

/-- Loop body of vlq.read_vlq: OR the low 7 bits of each byte into the
result at bit offset 7*index until a byte with a clear continuation flag.
Every iteration consumes one byte, so fuel remaining + 1 never runs out. -/
def read_vlq_go : Nat → Source → Nat → Nat → Except PyError Nat × Source
  | 0, s, _, _ => (.error .decodingError, s)
  | fuel + 1, s, index, result =>
      match read_bytes 1 s with
      | (.ok bs, s₁) =>
          let byte := bs.headD 0
          let result₁ := result ||| ((byte &&& 0x7f) <<< (7 * index))
          if byte &&& 0x80 < 1 then (.ok result₁, s₁)
          else read_vlq_go fuel s₁ (index + 1) result₁
      | (.error e, s₁) => (.error e, s₁)

/-- vlq.read_vlq. -/
def read_vlq (s : Source) : Except PyError Nat × Source :=
  read_vlq_go (s.remaining + 1) s 0 0

/-- vlq.read_vlq_sized: fixed-size little-endian low part, then a varint
high part shifted above it. -/
def read_vlq_sized (fixed_size : Nat) (s : Source) : Except PyError Nat × Source :=
  match read_bytes fixed_size s with
  | (.ok bs, s₁) =>
      match read_vlq s₁ with
      | (.ok high, s₂) => (.ok ((high <<< (fixed_size * 8)) + from_bytes_le bs), s₂)
      | (.error e, s₂) => (.error e, s₂)
  | (.error e, s₁) => (.error e, s₁)

/-- vlq.write_vlq_sized: the low fixed_size*8 bits as a little-endian
fixed-width prefix, then the varint encoding of the rest. -/
def write_vlq_sized (value : Nat) (fixed_size : Nat) : List Nat :=
  let bit_count := fixed_size * 8
  to_bytes_le fixed_size (value &&& (1 <<< bit_count - 1)) ++ write_vlq (value >>> bit_count)

/-- vlq.write_vlq_signed: zig-zag fold, then sized varint. Total on all
integers because the folded value is non-negative. -/
def write_vlq_signed (value : Int) (fixed_size : Nat) : List Nat :=
  write_vlq_sized ((value.natAbs <<< 1) ||| (if value < 0 then 1 else 0)) fixed_size

/-- vlq.read_vlq_signed: sign from the low bit, magnitude from the rest. -/
def read_vlq_signed (fixed_size : Nat) (s : Source) : Except PyError Int × Source :=
  match read_vlq_sized fixed_size s with
  | (.ok result, s₁) =>
      (.ok (((result >>> 1 : Nat) : Int) * (if result &&& 1 > 0 then -1 else 1)), s₁)
  | (.error e, s₁) => (.error e, s₁)

/-- Embedded subset of the EncodingFormat literal type in primitive.py
(the f32/f64/utf-8/utf-16/json/object/pickle formats delegate to external
codecs and are not embedded). -/
inductive PrimFormat where
  | bool
  | u8 | u16 | u32 | u64
  | i8 | i16 | i32 | i64
  | v8 | v16 | v32 | v64
  | w8 | w16 | w32 | w64
  | bytes | ntBytes
  | void
  deriving DecidableEq, Repr

/-- Byte width of the fixed-width integer formats. -/
def PrimFormat.byteWidth : PrimFormat → Nat
  | .u8 | .i8 => 1
  | .u16 | .i16 => 2
  | .u32 | .i32 => 4
  | .u64 | .i64 => 8
  | _ => 0

/-- Truthiness of a Python value, as used by struct.pack with the bool
format specifier. -/
def PyValue.truthy : PyValue → Bool
  | .none => false
  | .bool b => b
  | .int n => n != 0
  | .bytes bs => !bs.isEmpty
  | .unit => false

/-- View of a value as the integer struct.pack works on: Python accepts int
and bool (a subclass of int) and raises struct.error otherwise. -/
def PyValue.packInt : PyValue → Except PyError Int
  | .bool b => .ok (if b then 1 else 0)
  | .int n => .ok n
  | _ => .error .structError

/-- View of a value as the integer the vlq routines shift and mask; a value
that is not an integer makes those operators raise TypeError. -/
def PyValue.vlqInt : PyValue → Except PyError Int
  | .bool b => .ok (if b then 1 else 0)
  | .int n => .ok n
  | _ => .error .typeError

namespace Primitive

/-- struct.pack with an unsigned fixed-width format: in-range values are
written little-endian, out-of-range values raise struct.error. -/
def packUnsigned (width : Nat) (v : PyValue) : Except PyError (List Nat) :=
  match v.packInt with
  | .ok n =>
      if 0 ≤ n ∧ n < (2 : Int) ^ (8 * width) then .ok (to_bytes_le width n.toNat)
      else .error .structError
  | .error e => .error e

/-- struct.pack with a signed fixed-width format: two's complement
little-endian, struct.error when out of range. -/
def packSigned (width : Nat) (v : PyValue) : Except PyError (List Nat) :=
  match v.packInt with
  | .ok n =>
      if -(2 : Int) ^ (8 * width - 1) ≤ n ∧ n < (2 : Int) ^ (8 * width - 1)
      then .ok (to_bytes_le width (n.emod ((2 : Int) ^ (8 * width))).toNat)
      else .error .structError
  | .error e => .error e

/-- Write a value with vlq.write_vlq: a negative integer makes the Python
loop run forever, recorded here as the nonTermination outcome. -/
def writeVlqValue (v : PyValue) : Except PyError (List Nat) :=
  match v.vlqInt with
  | .ok n => if n < 0 then .error .nonTermination else .ok (write_vlq n.toNat)
  | .error e => .error e

/-- Write a value with vlq.write_vlq_signed (total: the zig-zag fold is
applied before the varint loop). -/
def writeVlqSignedValue (fixed_size : Nat) (v : PyValue) : Except PyError (List Nat) :=
  match v.vlqInt with
  | .ok n => .ok (write_vlq_signed n fixed_size)
  | .error e => .error e

/-- primitive.serialize. The four sized-varint formats v8/v16/v32/v64 share
one arm because the source's first match case, the or-pattern over all four
format strings, captures every one of them and writes a plain varint; the
per-format write_vlq_sized cases below it in the source are unreachable. -/
def serialize (v : PyValue) : PrimFormat → Except PyError (List Nat)
  | .bool => .ok [if v.truthy then 1 else 0]
  | .u8 => packUnsigned 1 v
  | .u16 => packUnsigned 2 v
  | .u32 => packUnsigned 4 v
  | .u64 => packUnsigned 8 v
  | .i8 => packSigned 1 v
  | .i16 => packSigned 2 v
  | .i32 => packSigned 4 v
  | .i64 => packSigned 8 v
  | .v8 | .v16 | .v32 | .v64 => writeVlqValue v
  | .w8 => writeVlqSignedValue 0 v
  | .w16 => writeVlqSignedValue 1 v
  | .w32 => writeVlqSignedValue 2 v
  | .w64 => writeVlqSignedValue 3 v
  | .bytes =>
      match v with
      | .bytes bs => .ok (write_vlq bs.length ++ bs)
      | _ => .error .typeError
  | .ntBytes =>
      match v with
      | .bytes bs => .ok (bs ++ [0])
      | _ => .error .typeError
  | .void => .ok []

/-- Fixed-width unsigned read: decoding.read_struct with an unsigned
little-endian format specifier. -/
def readUnsigned (width : Nat) (s : Source) : Except PyError PyValue × Source :=
  match read_bytes width s with
  | (.ok bs, s₁) => (.ok (.int (from_bytes_le bs)), s₁)
  | (.error e, s₁) => (.error e, s₁)

/-- Fixed-width signed read: two's complement little-endian. -/
def readSigned (width : Nat) (s : Source) : Except PyError PyValue × Source :=
  match read_bytes width s with
  | (.ok bs, s₁) =>
      let u := from_bytes_le bs
      (.ok (.int (if u < 2 ^ (8 * width - 1) then (u : Int) else (u : Int) - 2 ^ (8 * width))), s₁)
  | (.error e, s₁) => (.error e, s₁)

/-- Read with vlq.read_vlq_sized, wrapping the integer as a value. -/
def readVlqValue (fixed_size : Nat) (s : Source) : Except PyError PyValue × Source :=
  match read_vlq_sized fixed_size s with
  | (.ok n, s₁) => (.ok (.int n), s₁)
  | (.error e, s₁) => (.error e, s₁)

/-- Read with vlq.read_vlq_signed, wrapping the integer as a value. -/
def readVlqSignedValue (fixed_size : Nat) (s : Source) : Except PyError PyValue × Source :=
  match read_vlq_signed fixed_size s with
  | (.ok n, s₁) => (.ok (.int n), s₁)
  | (.error e, s₁) => (.error e, s₁)

/-- Body of primitive.deserialize, before the error-translation wrapper. -/
def deserializeRaw (s : Source) : PrimFormat → Except PyError PyValue × Source
  | .bool =>
      match read_bytes 1 s with
      | (.ok bs, s₁) => (.ok (.bool (bs.headD 0 != 0)), s₁)
      | (.error e, s₁) => (.error e, s₁)
  | .u8 => readUnsigned 1 s
  | .u16 => readUnsigned 2 s
  | .u32 => readUnsigned 4 s
  | .u64 => readUnsigned 8 s
  | .i8 => readSigned 1 s
  | .i16 => readSigned 2 s
  | .i32 => readSigned 4 s
  | .i64 => readSigned 8 s
  | .v8 => readVlqValue 0 s
  | .v16 => readVlqValue 1 s
  | .v32 => readVlqValue 2 s
  | .v64 => readVlqValue 3 s
  | .w8 => readVlqSignedValue 0 s
  | .w16 => readVlqSignedValue 1 s
  | .w32 => readVlqSignedValue 2 s
  | .w64 => readVlqSignedValue 3 s
  | .bytes =>
      match read_vlq s with
      | (.ok length, s₁) =>
          match read_bytes length s₁ with
          | (.ok bs, s₂) => (.ok (.bytes bs), s₂)
          | (.error e, s₂) => (.error e, s₂)
      | (.error e, s₁) => (.error e, s₁)
  | .ntBytes =>
      match read_nt_bytes s with
      | (.ok bs, s₁) => (.ok (.bytes bs), s₁)
      | (.error e, s₁) => (.error e, s₁)
  | .void => (.ok .unit, s)

/-- primitive.deserialize: the except clause catches the low-level
DecodingError (and EOFError/UnicodeDecodeError/struct.error, none of which
the embedded formats can raise there) and re-raises DeserializationError;
every other exception, such as AttributeError, propagates unchanged. -/
def deserialize (s : Source) (f : PrimFormat) : Except PyError PyValue × Source :=
  match deserializeRaw s f with
  | (.error .decodingError, s₁) => (.error .deserializationError, s₁)
  | r => r

/-- primitive.get_encoding_for_int_range: the first format in the list
u8, u16, u32, u64 whose limit covers max_value, else the v64 fallback. -/
def get_encoding_for_int_range (max_value : Nat) : PrimFormat :=
  if max_value ≤ 1 <<< 8 then .u8
  else if max_value ≤ 1 <<< 16 then .u16
  else if max_value ≤ 1 <<< 32 then .u32
  else if max_value ≤ 1 <<< 64 then .u64
  else .v64

end Primitive

/-- Embedded subset of the composite EncodingFormat from composite.py: a
primitive format string, the builtin types bool/bytes/int, NoneType, and a
union (Optional[T] is Python sugar for Union[T, None], whose argument tuple
lists NoneType second). -/
inductive Descr where
  | prim (f : PrimFormat)
  | pyBool
  | pyBytes
  | pyInt
  | noneType
  | union (variants : List Descr)

/-- isinstance(value, variant_type) as used by the union serializer on the
embedded variant forms. bool is a subclass of int in Python, so a bool
matches the int variant. isinstance with a format string as second argument
raises TypeError. -/
def matchesVariant (v : PyValue) : Descr → Except PyError Bool
  | .pyBool => .ok (match v with | .bool _ => true | _ => false)
  | .pyBytes => .ok (match v with | .bytes _ => true | _ => false)
  | .pyInt => .ok (match v with | .int _ => true | .bool _ => true | _ => false)
  | .noneType => .ok (match v with | .none => true | _ => false)
  | _ => .error .typeError

mutual

/-- composite.serialize on the embedded descriptor forms. A NoneType (or
Ellipsis) descriptor writes nothing regardless of the value. -/
def cserialize (v : PyValue) : Descr → Except PyError (List Nat)
  | .prim f => Primitive.serialize v f
  | .pyBool => Primitive.serialize v .bool
  | .pyBytes => Primitive.serialize v .bytes
  | .pyInt => Primitive.serialize v .v8
  | .noneType => .ok []
  | .union variants => cserializeUnion v variants 0

/-- The union arm of composite.serialize: scan the declared variants in
order; on the first isinstance match write the variant index as a varint
and then the value under that variant's descriptor; if no variant matches
raise ValueError. -/
def cserializeUnion (v : PyValue) : List Descr → Nat → Except PyError (List Nat)
  | [], _ => .error .valueError
  | d :: rest, variant_index =>
      match matchesVariant v d with
      | .ok true =>
          match Primitive.serialize (.int variant_index) .v8 with
          | .ok header =>
              match cserialize v d with
              | .ok body => .ok (header ++ body)
              | .error e => .error e
          | .error e => .error e
      | .ok false => cserializeUnion v rest (variant_index + 1)
      | .error e => .error e

end

mutual

/-- composite.deserialize on the embedded descriptor forms. -/
def cdeserialize (s : Source) : Descr → Except PyError PyValue × Source
  | .prim f => Primitive.deserialize s f
  | .pyBool => Primitive.deserialize s .bool
  | .pyBytes => Primitive.deserialize s .bytes
  | .pyInt => Primitive.deserialize s .v8
  | .noneType => (.ok .none, s)
  | .union variants =>
      match Primitive.deserialize s .v8 with
      | (.ok (.int n), s₁) => cdeserializeUnion s₁ variants n.toNat
      | (.ok _, s₁) => (.error .typeError, s₁)
      | (.error e, s₁) => (.error e, s₁)

/-- The union arm of composite.deserialize: index the variant tuple with
the ordinal just read (always non-negative, since it comes from a varint)
and decode under that variant; an out-of-range index raises IndexError with
no bounds check in the source. -/
def cdeserializeUnion (s : Source) : List Descr → Nat → Except PyError PyValue × Source
  | [], _ => (.error .indexError, s)
  | d :: _, 0 => cdeserialize s d
  | _ :: rest, idx + 1 => cdeserializeUnion s rest idx

end

/-- The descriptor of Optional[int]: Union[int, None], NoneType second. -/
def optionalInt : Descr := .union [.pyInt, .noneType]

/-- Wire behavior registered by enum_serializable for an enum with
variant_count members: the member with index i writes i in the ordinal
width chosen by get_encoding_for_int_range(variant_count). -/
def enum_serialize (variant_count : Nat) (i : Nat) : Except PyError (List Nat) :=
  Primitive.serialize (.int i) (Primitive.get_encoding_for_int_range variant_count)

/-- Decoding half of enum_serializable: read an ordinal with the registered
width and index the variant list with it. The ordinal formats only produce
non-negative integers, and Python list indexing raises IndexError when the
index reaches the list length. Returns the variant's index. -/
def enum_deserialize (variant_count : Nat) (s : Source) : Except PyError Nat × Source :=
  match Primitive.deserialize s (Primitive.get_encoding_for_int_range variant_count) with
  | (.ok (.int n), s₁) =>
      if n.toNat < variant_count then (.ok n.toNat, s₁) else (.error .indexError, s₁)
  | (.ok _, s₁) => (.error .typeError, s₁)
  | (.error e, s₁) => (.error e, s₁)

/-- Wire integer written by flag_serializable: the sum of 2^index over the
member indices present in the value; bits lists membership over the
declaration-ordered variants. -/
def flag_bits_sum : List Bool → Nat → Nat
  | [], _ => 0
  | b :: rest, index => (if b then 2 ^ index else 0) + flag_bits_sum rest (index + 1)

/-- Encoding half of flag_serializable for a flag whose membership list is
bits: write the bit-weight sum in the width chosen for cardinality
2^variant_count. -/
def flag_serialize (bits : List Bool) : Except PyError (List Nat) :=
  Primitive.serialize (.int (flag_bits_sum bits 0))
    (Primitive.get_encoding_for_int_range (2 ^ bits.length))

/-- functools.reduce(operator.or_, weights) with no initial value: raises
TypeError on an empty list, otherwise ORs the elements left to right. -/
def reduce_or : List Nat → Except PyError Nat
  | [] => .error .typeError
  | w :: rest => .ok (rest.foldl (· ||| ·) w)

/-- Decoding half of flag_serializable: read the wire integer, collect the
variants whose bit is set, and reduce them with bitwise or. The combined
flag value is represented by its bit-weight sum. -/
def flag_deserialize (variant_count : Nat) (s : Source) : Except PyError Nat × Source :=
  match Primitive.deserialize s (Primitive.get_encoding_for_int_range (2 ^ variant_count)) with
  | (.ok (.int n), s₁) =>
      let weights :=
        ((List.range variant_count).filter (fun index => n.toNat &&& (2 ^ index) != 0)).map
          (fun index => 2 ^ index)
      (match reduce_or weights with
       | .ok w => (.ok w, s₁)
       | .error e => (.error e, s₁))
  | (.ok _, s₁) => (.error .typeError, s₁)
  | (.error e, s₁) => (.error e, s₁)

/-- One dataclass field as seen by class_serializable: its name (field
names only matter up to equality, so they are numbered), its declared
encoding, the serialize metadata flag, and the declared default and
default_factory (a factory is represented by the value it returns;
a missing default or factory is Option.none). -/
structure FieldSpec where
  name : Nat
  format : Descr
  serialize : Bool
  default : Option PyValue
  default_factory : Option PyValue

/-- Registration-time check in class_serializable: a field whose serialize
metadata flag is false and which has neither a default nor a
default_factory raises ValueError immediately when the type is decorated. -/
def class_serializable_check (fields : List FieldSpec) : Except PyError Unit :=
  if fields.any (fun f => !f.serialize && f.default.isNone && f.default_factory.isNone)
  then .error .valueError else .ok ()

/-- Encoding half registered by class_serializable on a dataclass: write
each field with a true serialize flag in declaration order; skipped fields
contribute nothing. The instance is a map from field name to held value. -/
def struct_serialize (fields : List FieldSpec) (inst : Nat → PyValue) :
    Except PyError (List Nat) :=
  match fields with
  | [] => .ok []
  | f :: rest =>
      if !f.serialize then struct_serialize rest inst
      else
        match cserialize (inst f.name) f.format with
        | .ok bs =>
            match struct_serialize rest inst with
            | .ok bs₁ => .ok (bs ++ bs₁)
            | .error e => .error e
        | .error e => .error e

/-- Decoding half registered by class_serializable on a dataclass: build
the field_values dictionary (here an ordered association list). A field
with a true serialize flag is decoded from the stream; otherwise its
default is used if declared, else its default_factory result, else the
field is left out of the dictionary. -/
def struct_deserialize (fields : List FieldSpec) (s : Source) :
    Except PyError (List (Nat × PyValue)) × Source :=
  match fields with
  | [] => (.ok [], s)
  | f :: rest =>
      if f.serialize then
        match cdeserialize s f.format with
        | (.ok v, s₁) =>
            (match struct_deserialize rest s₁ with
             | (.ok fv, s₂) => (.ok ((f.name, v) :: fv), s₂)
             | (.error e, s₂) => (.error e, s₂))
        | (.error e, s₁) => (.error e, s₁)
      else
        match f.default with
        | some v =>
            (match struct_deserialize rest s with
             | (.ok fv, s₂) => (.ok ((f.name, v) :: fv), s₂)
             | (.error e, s₂) => (.error e, s₂))
        | none =>
            match f.default_factory with
            | some v =>
                (match struct_deserialize rest s with
                 | (.ok fv, s₂) => (.ok ((f.name, v) :: fv), s₂)
                 | (.error e, s₂) => (.error e, s₂))
            | none => struct_deserialize rest s

namespace Entry

/-- entry.dumps: serialize into a fresh BytesIO and return its contents. -/
def dumps (v : PyValue) (d : Descr) : Except PyError (List Nat) :=
  cserialize v d

/-- entry.loads: deserialize from a BytesIO over the data. Its body calls
deserialize directly, without the end-of-data refinement that load has. -/
def loads (data : List Nat) (d : Descr) : Except PyError PyValue × Source :=
  cdeserialize (.buffer data 0) d

/-- entry.load: remember the stream position, deserialize, and re-raise a
DeserializationError as DeserializationEOFError when the position did not
move during the failed attempt. -/
def load (data : List Nat) (pos : Nat) (d : Descr) : Except PyError PyValue × Source :=
  match cdeserialize (.buffer data pos) d with
  | (.error e, s₁) =>
      if (e = .deserializationError ∨ e = .deserializationEOFError) ∧ s₁.tell = pos
      then (.error .deserializationEOFError, s₁)
      else (.error e, s₁)
  | r => r

end Entry

namespace Root

/-- loads from the package root module: wraps the bytes in a Decoder
instance instead of a BytesIO stream before deserializing. -/
def loads (data : List Nat) (d : Descr) : Except PyError PyValue × Source :=
  cdeserialize (.decoder data 0) d

end Root

/-! Helper lemmas about the bit arithmetic used by the varint codec. -/

lemma lor_shiftLeft_eq_add (a b k : Nat) (h : a < 2 ^ k) :
    a ||| (b <<< k) = a + b * 2 ^ k := by
  apply Nat.eq_of_testBit_eq
  intro j
  rw [Nat.testBit_lor, Nat.testBit_shiftLeft]
  rcases lt_or_ge j k with hj | hj
  · have hge : decide (j ≥ k) = false := by simp [Nat.not_le.mpr hj]
    rw [hge, Bool.false_and, Bool.or_false]
    rw [Nat.testBit_to_div_mod, Nat.testBit_to_div_mod]
    have hsplit : (a + b * 2 ^ k) / 2 ^ j = a / 2 ^ j + b * 2 ^ (k - j) := by
      have hk : (2 : Nat) ^ k = 2 ^ (k - j) * 2 ^ j := by
        rw [← pow_add]
        congr 1
        omega
      rw [hk, ← mul_assoc, Nat.add_mul_div_right _ _ (Nat.pos_pow_of_pos j (by norm_num))]
    rw [hsplit]
    have hm : k - j = k - j - 1 + 1 := by omega
    have heven : b * 2 ^ (k - j) = 2 * (b * 2 ^ (k - j - 1)) := by
      conv_lhs => rw [hm]
      rw [pow_succ]
      ring
    rw [heven]
    have h2 := Nat.add_mul_mod_self_left (a / 2 ^ j) 2 (b * 2 ^ (k - j - 1))
    simp only [decide_eq_decide]
    omega
  · have hbit : a.testBit j = false :=
      Nat.testBit_eq_false_of_lt (lt_of_lt_of_le h (Nat.pow_le_pow_right (by norm_num) hj))
    have hge : decide (j ≥ k) = true := by simp [hj]
    rw [hbit, hge, Bool.true_and, Bool.false_or]
    rw [Nat.testBit_to_div_mod, Nat.testBit_to_div_mod]
    have hdiv : (a + b * 2 ^ k) / 2 ^ j = b / 2 ^ (j - k) := by
      have h1 : (2 : Nat) ^ j = 2 ^ k * 2 ^ (j - k) := by
        rw [← pow_add]
        congr 1
        omega
      have h2 : (a + b * 2 ^ k) / 2 ^ k = b := by
        rw [Nat.add_mul_div_right _ _ (Nat.pos_pow_of_pos k (by norm_num)),
          Nat.div_eq_of_lt h]
        omega
      rw [h1, ← Nat.div_div_eq_div_mul, h2]
    rw [hdiv]

lemma and_127_eq_mod (m : Nat) : m &&& 127 = m % 128 := by
  have := Nat.and_pow_two_sub_one_eq_mod m 7
  norm_num at this
  exact this

lemma and_128_of_lt (m : Nat) (h : m < 128) : m &&& 128 = 0 := by
  have h1 : (128 : Nat) = 2 ^ 7 := by norm_num
  have hbit : m.testBit 7 = false := Nat.testBit_eq_false_of_lt (by omega)
  rw [h1, Nat.and_two_pow, hbit]
  rfl

lemma or_128_and_128 (x : Nat) : (x ||| 128) &&& 128 = 128 := by
  have h1 : (128 : Nat) = 2 ^ 7 := by norm_num
  have hbit : (x ||| 128).testBit 7 = true := by
    rw [Nat.testBit_lor]
    have h2 : Nat.testBit 128 7 = true := by decide
    rw [h2, Bool.or_true]
  rw [h1] at hbit ⊢
  rw [Nat.and_two_pow, hbit]
  norm_num

lemma or_128_eq_add (x : Nat) (h : x < 128) : x ||| 128 = x + 128 := by
  have h7 : (128 : Nat) = 1 <<< 7 := by decide
  have hlt : x < 2 ^ 7 := by
    have : (2 : Nat) ^ 7 = 128 := by norm_num
    omega
  calc x ||| 128 = x ||| 1 <<< 7 := by rw [h7]
    _ = x + 1 * 2 ^ 7 := lor_shiftLeft_eq_add x 1 7 hlt
    _ = x + 128 := by norm_num

lemma or_128_and_127 (x : Nat) (h : x < 128) : (x ||| 128) &&& 127 = x := by
  rw [or_128_eq_add x h, and_127_eq_mod]
  omega

/-! Equation and fuel lemmas for write_vlq. -/

lemma write_vlq_go_invariant : ∀ f₁ f₂ n, n < f₁ → n < f₂ →
    write_vlq_go f₁ n = write_vlq_go f₂ n := by
  intro f₁
  induction f₁ with
  | zero => intro f₂ n h₁ _; omega
  | succ f ih =>
    intro f₂ n h₁ h₂
    match f₂, h₂ with
    | g + 1, h₂ =>
      show write_vlq_go (f + 1) n = write_vlq_go (g + 1) n
      rw [write_vlq_go, write_vlq_go]
      by_cases hr : n >>> 7 < 1
      · rw [if_pos hr, if_pos hr]
      · rw [if_neg hr, if_neg hr]
        have hpos : 0 < n := by
          rcases Nat.eq_zero_or_pos n with h0 | h0
          · subst h0
            simp [Nat.shiftRight_eq_div_pow] at hr
          · exact h0
        have hrest : n >>> 7 < n := by
          rw [Nat.shiftRight_eq_div_pow]
          exact Nat.div_lt_self hpos (by norm_num)
        congr 1
        exact ih g (n >>> 7) (by omega) (by omega)

lemma write_vlq_eq (n : Nat) : write_vlq n =
    if n >>> 7 = 0 then [n &&& 127] else (n &&& 127 ||| 128) :: write_vlq (n >>> 7) := by
  rw [write_vlq, write_vlq_go]
  by_cases hr : n >>> 7 = 0
  · have hr1 : n >>> 7 < 1 := by omega
    rw [if_pos hr1, if_pos hr]
  · have hr1 : ¬ n >>> 7 < 1 := by omega
    rw [if_neg hr1, if_neg hr]
    congr 1
    have hpos : 0 < n := by
      rcases Nat.eq_zero_or_pos n with h0 | h0
      · subst h0
        simp at hr
      · exact h0
    have hrest : n >>> 7 < n := by
      rw [Nat.shiftRight_eq_div_pow]
      exact Nat.div_lt_self hpos (by norm_num)
    exact write_vlq_go_invariant n (n >>> 7 + 1) (n >>> 7) (by omega) (by omega)

lemma read_bytes_cons (data : List Nat) (pos b : Nat) (t : List Nat)
    (h : data.drop pos = b :: t) :
    read_bytes 1 (.buffer data pos) = (.ok [b], .buffer data (pos + 1)) := by
  simp [read_bytes, Source.read, h]

/-- Reading back a varint written at the cursor position: the loop returns
the written integer merged into the accumulator and stops right after the
written bytes. -/
lemma read_vlq_go_spec : ∀ m fuel data pos rest index acc,
    data.drop pos = write_vlq m ++ rest →
    (write_vlq m).length ≤ fuel →
    acc < 2 ^ (7 * index) →
    read_vlq_go fuel (.buffer data pos) index acc =
      (.ok (acc + m * 2 ^ (7 * index)), .buffer data (pos + (write_vlq m).length)) := by
  intro m
  induction m using Nat.strong_induction_on with
  | _ m ih =>
    intro fuel data pos rest index acc hdrop hfuel hacc
    by_cases h7 : m >>> 7 = 0
    · have hmlt : m < 128 := by
        by_contra hge
        push_neg at hge
        have h1 : 1 ≤ m / 128 := (Nat.one_le_div_iff (by norm_num)).mpr hge
        rw [Nat.shiftRight_eq_div_pow] at h7
        norm_num at h7
        omega
      have hwv : write_vlq m = [m] := by
        rw [write_vlq_eq, if_pos h7, and_127_eq_mod, Nat.mod_eq_of_lt hmlt]
      rw [hwv] at hdrop hfuel ⊢
      match fuel, hfuel with
      | f + 1, _ =>
        rw [read_vlq_go, read_bytes_cons data pos m rest (by simpa using hdrop)]
        have hcont : m &&& 128 < 1 := by
          rw [and_128_of_lt m hmlt]
          norm_num
        simp only [List.headD_cons, if_pos hcont]
        rw [and_127_eq_mod, Nat.mod_eq_of_lt hmlt, lor_shiftLeft_eq_add acc m _ hacc]
        simp
    · have hm128 : 128 ≤ m := by
        by_contra hlt
        push_neg at hlt
        rw [Nat.shiftRight_eq_div_pow] at h7
        norm_num at h7
        exact h7 (Nat.div_eq_of_lt hlt)
      have hmod : m &&& 127 < 128 := by
        rw [and_127_eq_mod]
        exact Nat.mod_lt _ (by norm_num)
      have hwv : write_vlq m = (m &&& 127 ||| 128) :: write_vlq (m >>> 7) := by
        rw [write_vlq_eq, if_neg h7]
      rw [hwv] at hdrop hfuel ⊢
      rw [List.cons_append] at hdrop
      match fuel, hfuel with
      | f + 1, hfuel =>
        rw [read_vlq_go, read_bytes_cons data pos _ _ hdrop]
        have hcont : ¬ ((m &&& 127 ||| 128) &&& 128 < 1) := by
          rw [or_128_and_128]
          norm_num
        simp only [List.headD_cons, if_neg hcont]
        rw [or_128_and_127 _ hmod]
        have hdrop1 : data.drop (pos + 1) = write_vlq (m >>> 7) ++ rest := by
          have h := congrArg (List.drop 1) hdrop
          rw [List.drop_drop] at h
          simpa using h
        have hrest_lt : m >>> 7 < m := by
          rw [Nat.shiftRight_eq_div_pow]
          exact Nat.div_lt_self (by omega) (by norm_num)
        have hpow : (2 : Nat) ^ (7 * (index + 1)) = 2 ^ (7 * index) * 128 := by
          rw [show 7 * (index + 1) = 7 * index + 7 by ring, pow_add]
          norm_num
        have h127 : m &&& 127 ≤ 127 := by
          rw [and_127_eq_mod]
          omega
        have hacc1 : acc ||| ((m &&& 127) <<< (7 * index)) < 2 ^ (7 * (index + 1)) := by
          rw [lor_shiftLeft_eq_add acc _ _ hacc, hpow]
          have hmul : (m &&& 127) * 2 ^ (7 * index) ≤ 127 * 2 ^ (7 * index) :=
            Nat.mul_le_mul_right _ h127
          nlinarith [hacc, hmul]
        have hfuel1 : (write_vlq (m >>> 7)).length ≤ f := by
          simp only [List.length_cons] at hfuel
          omega
        rw [ih (m >>> 7) hrest_lt f data (pos + 1) rest (index + 1)
          (acc ||| ((m &&& 127) <<< (7 * index))) hdrop1 hfuel1 hacc1]
        have hval : (acc ||| ((m &&& 127) <<< (7 * index))) + (m >>> 7) * 2 ^ (7 * (index + 1)) =
            acc + m * 2 ^ (7 * index) := by
          rw [lor_shiftLeft_eq_add acc _ _ hacc, and_127_eq_mod,
            Nat.shiftRight_eq_div_pow, hpow]
          have hm : m % 128 + 128 * (m / 128) = m := Nat.mod_add_div m 128
          norm_num
          calc acc + m % 128 * 2 ^ (7 * index) + m / 128 * (2 ^ (7 * index) * 128)
              = acc + (m % 128 + 128 * (m / 128)) * 2 ^ (7 * index) := by ring
            _ = acc + m * 2 ^ (7 * index) := by rw [hm]
        rw [hval]
        simp only [List.length_cons]
        rw [show pos + 1 + (write_vlq (m >>> 7)).length =
          pos + ((write_vlq (m >>> 7)).length + 1) by omega]

/-- vlq.read_vlq recovers the integer written by vlq.write_vlq at the
cursor position, leaving the cursor immediately past it. -/
lemma read_vlq_spec (m : Nat) (data : List Nat) (pos : Nat) (rest : List Nat)
    (hdrop : data.drop pos = write_vlq m ++ rest) :
    read_vlq (.buffer data pos) =
      (.ok m, .buffer data (pos + (write_vlq m).length)) := by
  rw [read_vlq]
  have hlen : (write_vlq m).length ≤ Source.remaining (.buffer data pos) + 1 := by
    have h := congrArg List.length hdrop
    simp [List.length_append] at h
    simp [Source.remaining]
    omega
  have := read_vlq_go_spec m (Source.remaining (.buffer data pos) + 1) data pos rest 0 0
    hdrop hlen (by norm_num)
  simpa using this

lemma shiftRight7_eq_zero_iff (n : Nat) : n >>> 7 = 0 ↔ n < 128 := by
  rw [Nat.shiftRight_eq_div_pow]
  norm_num
  omega

lemma size_shiftRight (n k : Nat) : Nat.size (n >>> k) = Nat.size n - k := by
  apply Nat.le_antisymm
  · rw [Nat.size_le, Nat.shiftRight_eq_div_pow]
    rcases le_or_lt (Nat.size n) k with hk | hk
    · have hn : n < 2 ^ k :=
        lt_of_lt_of_le (Nat.lt_size_self n) (Nat.pow_le_pow_right (by norm_num) hk)
      rw [Nat.div_eq_of_lt hn]
      exact Nat.pos_pow_of_pos _ (by norm_num)
    · rw [Nat.div_lt_iff_lt_mul (Nat.pos_pow_of_pos k (by norm_num)), ← pow_add]
      have he : Nat.size n - k + k = Nat.size n := by omega
      rw [he]
      exact Nat.lt_size_self n
  · have h1 : n < 2 ^ (Nat.size (n >>> k) + k) := by
      rw [pow_add, ← Nat.div_lt_iff_lt_mul (Nat.pos_pow_of_pos k (by norm_num)),
        ← Nat.shiftRight_eq_div_pow]
      exact Nat.lt_size_self _
    have := Nat.size_le.mpr h1
    omega

/-- Length of the varint encoding: one byte per started group of 7 bits,
and a single byte for zero. -/
lemma write_vlq_length (n : Nat) :
    (write_vlq n).length = max 1 ((Nat.size n + 6) / 7) := by
  induction n using Nat.strong_induction_on with
  | _ n ih =>
    by_cases h7 : n >>> 7 = 0
    · rw [write_vlq_eq, if_pos h7]
      have hlt : n < 128 := (shiftRight7_eq_zero_iff n).mp h7
      have hsize : Nat.size n ≤ 7 := Nat.size_le.mpr (by omega)
      simp only [List.length_cons, List.length_nil]
      omega
    · rw [write_vlq_eq, if_neg h7]
      have hge : 128 ≤ n := by
        have := (shiftRight7_eq_zero_iff n).mpr
        omega
      have hrest : n >>> 7 < n := by
        rw [Nat.shiftRight_eq_div_pow]
        exact Nat.div_lt_self (by omega) (by norm_num)
      rw [List.length_cons, ih _ hrest, size_shiftRight]
      have hsz : 8 ≤ Nat.size n := by
        have h27 : (2 : Nat) ^ 7 ≤ n := by
          norm_num
          omega
        have := Nat.lt_size.mpr h27
        omega
      omega

lemma to_bytes_le_length (k : Nat) : ∀ v, (to_bytes_le k v).length = k := by
  induction k with
  | zero => intro v; rfl
  | succ k ih =>
    intro v
    rw [to_bytes_le, List.length_cons, ih]

lemma and_mask_eq_mod (n bc : Nat) : n &&& (1 <<< bc - 1) = n % 2 ^ bc := by
  have h : (1 : Nat) <<< bc = 2 ^ bc := by
    rw [Nat.shiftLeft_eq, one_mul]
  rw [h, Nat.and_pow_two_sub_one_eq_mod]

lemma from_to_bytes_le (k : Nat) : ∀ v, from_bytes_le (to_bytes_le k v) = v % 2 ^ (k * 8) := by
  induction k with
  | zero =>
    intro v
    simp [to_bytes_le, from_bytes_le, Nat.mod_one]
  | succ k ih =>
    intro v
    rw [to_bytes_le, from_bytes_le, ih]
    have h255 : v &&& 255 = v % 256 := by
      have h := Nat.and_pow_two_sub_one_eq_mod v 8
      norm_num at h
      exact h
    have hshift : v >>> 8 = v / 256 := by
      rw [Nat.shiftRight_eq_div_pow]
    have hpow : (2 : Nat) ^ ((k + 1) * 8) = 256 * 2 ^ (k * 8) := by
      rw [show (k + 1) * 8 = 8 + k * 8 by ring, pow_add]
      norm_num
    rw [h255, hshift, hpow, Nat.mod_mul]

/-- vlq.read_vlq_sized recovers the integer written by vlq.write_vlq_sized
at the cursor position. -/
lemma read_vlq_sized_spec (n k : Nat) (data : List Nat) (pos : Nat) (rest : List Nat)
    (hdrop : data.drop pos = write_vlq_sized n k ++ rest) :
    read_vlq_sized k (.buffer data pos) =
      (.ok n, .buffer data (pos + (write_vlq_sized n k).length)) := by
  have hsplit : write_vlq_sized n k =
      to_bytes_le k (n % 2 ^ (k * 8)) ++ write_vlq (n >>> (k * 8)) := by
    rw [write_vlq_sized, and_mask_eq_mod]
  rw [hsplit] at hdrop ⊢
  set pre := to_bytes_le k (n % 2 ^ (k * 8)) with hpre_def
  have hpre : pre.length = k := to_bytes_le_length k _
  rw [List.append_assoc] at hdrop
  have htake : (pre ++ (write_vlq (n >>> (k * 8)) ++ rest)).take k = pre := by
    rw [← hpre, List.take_left]
  have hdropk : (pre ++ (write_vlq (n >>> (k * 8)) ++ rest)).drop k =
      write_vlq (n >>> (k * 8)) ++ rest := by
    rw [← hpre, List.drop_left]
  have hread : read_bytes k (.buffer data pos) = (.ok pre, .buffer data (pos + k)) := by
    rw [read_bytes, Source.read]
    simp [hdrop, htake, hpre]
  have hdrop2 : data.drop (pos + k) = write_vlq (n >>> (k * 8)) ++ rest := by
    have h := congrArg (List.drop k) hdrop
    rw [List.drop_drop, hdropk] at h
    exact h
  have hval : ((n >>> (k * 8)) <<< (k * 8)) + from_bytes_le pre = n := by
    rw [hpre_def, from_to_bytes_le, Nat.mod_mod_of_dvd _ dvd_rfl, Nat.shiftLeft_eq,
      Nat.shiftRight_eq_div_pow, Nat.mul_comm]
    exact Nat.div_add_mod n (2 ^ (k * 8))
  rw [read_vlq_sized, hread]
  simp only [read_vlq_spec (n >>> (k * 8)) data (pos + k) rest hdrop2, hval,
    List.length_append, hpre]
  rw [show pos + k + (write_vlq (n >>> (k * 8))).length =
    pos + (k + (write_vlq (n >>> (k * 8))).length) by omega]

/-! Claim theorems. -/

/-- C6: for every non-negative integer n, decoding the varint encoding of n
yields n with the cursor exactly past the written bytes; the encoded length
equals the ceiling of bit_length(n)/7 with a minimum of one byte (Nat.size
is the bit length); and the varint encoding of 300 is the byte pair
0xAC 0x02, which decodes back to 300. -/
theorem C6_varint_correctness :
    (∀ n : Nat, read_vlq (.buffer (write_vlq n) 0) =
        (.ok n, .buffer (write_vlq n) (write_vlq n).length)) ∧
    (∀ n : Nat, (write_vlq n).length = max 1 ((Nat.size n + 6) / 7)) ∧
    write_vlq 300 = [0xAC, 0x02] ∧
    (read_vlq (.buffer [0xAC, 0x02] 0)).1 = .ok 300 := by
  refine ⟨?_, write_vlq_length, by decide, by decide⟩
  intro n
  simpa using read_vlq_spec n (write_vlq n) 0 [] (by simp)

/-- C2 (code bug): the vlq layer does implement the claimed sized-varint
split: write_vlq_sized places the low 8k bits as a k-byte little-endian
prefix and read_vlq_sized reconstructs the integer exactly. But
primitive.serialize never reaches write_vlq_sized: its first match arm, the
or-pattern over v8/v16/v32/v64, captures all four formats and writes a
plain varint, while deserialization reads the sized layout. So serializing
300 under v16 emits the plain varint bytes 0xAC 0x02 (not the sized bytes
0x2C 0x01), and deserializing them under v16 returns 684 instead of 300. -/
theorem C2_sized_varint :
    (∀ n k : Nat, read_vlq_sized k (.buffer (write_vlq_sized n k) 0) =
        (.ok n, .buffer (write_vlq_sized n k) (write_vlq_sized n k).length)) ∧
    (∀ n k : Nat, (write_vlq_sized n k).take k = to_bytes_le k (n % 2 ^ (k * 8))) ∧
    Primitive.serialize (.int 300) .v16 = .ok [0xAC, 0x02] ∧
    write_vlq_sized 300 1 = [0x2C, 0x01] ∧
    (Primitive.deserialize (.buffer [0xAC, 0x02] 0) .v16).1 = .ok (.int 684) := by
  refine ⟨?_, ?_, by decide, by decide, by decide⟩
  · intro n k
    simpa using read_vlq_sized_spec n k (write_vlq_sized n k) 0 [] (by simp)
  · intro n k
    have hsplit : write_vlq_sized n k =
        to_bytes_le k (n % 2 ^ (k * 8)) ++ write_vlq (n >>> (k * 8)) := by
      rw [write_vlq_sized, and_mask_eq_mod]
    rw [hsplit]
    set pre := to_bytes_le k (n % 2 ^ (k * 8)) with hpre_def
    have hpre : pre.length = k := to_bytes_le_length k _
    rw [← hpre, List.take_left]

/-- C1 (code bug): the round trip fails on the supported descriptor v16
with the valid value 300: dumps writes the plain varint bytes 0xAC 0x02
(because the first match arm of primitive.serialize shadows the sized-
varint cases), and loads under the same descriptor returns 684, which is
not equal to 300. -/
theorem C1_round_trip_v16_failure :
    Entry.dumps (.int 300) (.prim .v16) = .ok [0xAC, 0x02] ∧
    (Entry.loads [0xAC, 0x02] (.prim .v16)).1 = .ok (.int 684) ∧
    PyValue.int 684 ≠ PyValue.int 300 :=
  ⟨by decide, by decide, by decide⟩

/-- C5 (code bug): entry.load does raise DeserializationEOFError on an
empty stream and the plain DeserializationError on a non-empty truncated
stream (position moved before the failure); but entry.loads, whose
docstring promises DeserializationEOFError for empty data, calls
deserialize directly without that refinement and raises the plain
DeserializationError on an empty buffer. -/
theorem C5_eof_vs_corruption :
    (Entry.load [] 0 .pyInt).1 = .error .deserializationEOFError ∧
    (Entry.load [0x80] 0 .pyInt).1 = .error .deserializationError ∧
    (Entry.loads [] .pyInt).1 = .error .deserializationError :=
  ⟨by decide, by decide, by decide⟩

/-- C3 (corrected): Optional[int] is Union[int, None] with NoneType as the
second variant, so None encodes as ordinal 1 with zero further bytes — not
ordinal 0 as the claim states. -/
theorem C3_optional_counterexample :
    Entry.dumps .none optionalInt = .ok [1] ∧
    (Except.ok [1] : Except PyError (List Nat)) ≠ .ok [0] :=
  ⟨by decide, by decide⟩

/-- C3 amended: under Optional[int], None encodes as ordinal 1 followed by
zero bytes, and a present integer n encodes as ordinal 0 followed by the
varint encoding of n; in particular 7 encodes as the bytes 0x00 0x07, and
both encodings decode back to the original value. -/
theorem C3_optional_ordinals :
    Entry.dumps .none optionalInt = .ok [1] ∧
    (∀ n : Nat, Entry.dumps (.int (Int.ofNat n)) optionalInt = .ok (0 :: write_vlq n)) ∧
    Entry.dumps (.int 7) optionalInt = .ok [0, 7] ∧
    (Entry.loads [1] optionalInt).1 = .ok .none ∧
    (Entry.loads [0, 7] optionalInt).1 = .ok (.int 7) := by
  refine ⟨by decide, ?_, by decide, by decide, by decide⟩
  intro n
  have h0 : write_vlq 0 = [0] := by decide
  have hneg : ¬ ((n : Int) < 0) := Int.not_lt.mpr (Int.natCast_nonneg n)
  simp [Entry.dumps, optionalInt, cserialize, cserializeUnion, matchesVariant,
    Primitive.serialize, Primitive.writeVlqValue, PyValue.vlqInt, h0, hneg]

/-- Indexing the variant list with an ordinal at least its length walks off
the end and raises IndexError. -/
lemma cdeserializeUnion_ge (s : Source) : ∀ (vs : List Descr) (i : Nat), vs.length ≤ i →
    cdeserializeUnion s vs i = (.error .indexError, s) := by
  intro vs
  induction vs with
  | nil => intro i _; rfl
  | cons d rest ih =>
    intro i hi
    match i, hi with
    | j + 1, hi =>
      rw [cdeserializeUnion]
      exact ih j (by simpa using hi)

/-- C4 (corrected): decoding the single byte 0x05 under Optional[int], a
two-variant union, raises IndexError, which is not DeserializationError:
the union decoder indexes the variant tuple without any bounds check, and
nothing catches the IndexError. -/
theorem C4_bounds_counterexample :
    (Entry.loads [5] optionalInt).1 = .error .indexError ∧
    PyError.indexError ≠ PyError.deserializationError :=
  ⟨by decide, by decide⟩

/-- C4 amended: there is no bounds check. Decoding any single-byte ordinal
b with 2 ≤ b ≤ 127 under the two-variant Optional[int] raises IndexError,
and for an enum with k ≤ 256 variants any ordinal byte b with k ≤ b ≤ 255
likewise raises IndexError, not DeserializationError. -/
theorem C4_ordinal_index_error :
    (∀ b : Nat, 2 ≤ b → b ≤ 127 → (Entry.loads [b] optionalInt).1 = .error .indexError) ∧
    (∀ k b : Nat, k ≤ 256 → k ≤ b → b ≤ 255 →
      (enum_deserialize k (.buffer [b] 0)).1 = .error .indexError) := by
  constructor
  · intro b hb2 hb127
    have hw : write_vlq b = [b] := by
      rw [write_vlq_eq, if_pos ((shiftRight7_eq_zero_iff b).mpr (by omega)),
        and_127_eq_mod, Nat.mod_eq_of_lt (by omega)]
    have hws : write_vlq_sized b 0 = [b] := by
      simp [write_vlq_sized, to_bytes_le, Nat.shiftRight_zero, hw]
    have hr := read_vlq_sized_spec b 0 [b] 0 [] (by simp [hws])
    rw [hws] at hr
    have hprim : Primitive.deserialize (.buffer [b] 0) .v8 = (.ok (.int b), .buffer [b] 1) := by
      simp [Primitive.deserialize, Primitive.deserializeRaw, Primitive.readVlqValue, hr]
    have hidx := cdeserializeUnion_ge (.buffer [b] 1) [.pyInt, .noneType] b (by simp; omega)
    simp [Entry.loads, optionalInt, cdeserialize, hprim, hidx]
  · intro k b hk hkb hb
    have h256 : (1 : Nat) <<< 8 = 256 := by decide
    have henc : Primitive.get_encoding_for_int_range k = .u8 := by
      rw [Primitive.get_encoding_for_int_range]
      simp only [h256]
      rw [if_pos (by omega)]
    have hread : read_bytes 1 (.buffer [b] 0) = (.ok [b], .buffer [b] 1) :=
      read_bytes_cons [b] 0 b [] (by simp)
    have hprim8 : Primitive.deserialize (.buffer [b] 0) .u8 =
        (.ok (.int b), .buffer [b] 1) := by
      simp [Primitive.deserialize, Primitive.deserializeRaw, Primitive.readUnsigned, hread,
        from_bytes_le]
    simp [enum_deserialize, henc, hprim8]
    rw [if_neg (by omega)]

/-- Witness for the amended C4 at the ordinal byte 5: Optional[int] has two
variants and an enum with two variants uses a one-byte ordinal, so in both
cases decoding ordinal 5 raises IndexError. -/
theorem C4_ordinal_index_error_witness :
    ((2 : Nat) ≤ 5 ∧ (5 : Nat) ≤ 127 ∧
      (Entry.loads [5] optionalInt).1 = .error .indexError) ∧
    ((2 : Nat) ≤ 256 ∧ (2 : Nat) ≤ 5 ∧ (5 : Nat) ≤ 255 ∧
      (enum_deserialize 2 (.buffer [5] 0)).1 = .error .indexError) :=
  ⟨⟨by decide, by decide, C4_ordinal_index_error.1 5 (by decide) (by decide)⟩,
   ⟨by decide, by decide, by decide,
    C4_ordinal_index_error.2 2 5 (by decide) (by decide) (by decide)⟩⟩

/-- C8 (corrected): the width selector falls back to v64 — the sized-varint
format with a three-byte fixed prefix — not to the unbounded varint (v8):
at 2^64 + 1 it returns v64, and the v64 deserializer disagrees with the
plain varint decoder already on the single byte 0x00. -/
theorem C8_width_counterexample :
    Primitive.get_encoding_for_int_range (2 ^ 64 + 1) = .v64 ∧
    PrimFormat.v64 ≠ .v8 ∧
    (Primitive.deserialize (.buffer [0] 0) .v64).1 = .error .deserializationError ∧
    (Primitive.deserialize (.buffer [0] 0) .v8).1 = .ok (.int 0) :=
  ⟨by decide, by decide, by decide, by decide⟩

/-- C8 amended: within 2^64 the selector returns the smallest unsigned
fixed width whose range covers 0..n-1, and beyond 2^64 it returns v64 (the
sized varint, not the unbounded one); consequently an enum with 300
variants writes every ordinal in exactly 2 bytes and an enum with 5
variants in exactly 1 byte. -/
theorem C8_cardinality_width :
    (∀ n : Nat, n ≤ 2 ^ 64 →
      n ≤ 2 ^ (8 * (Primitive.get_encoding_for_int_range n).byteWidth)) ∧
    (∀ n w : Nat, w ∈ [1, 2, 4, 8] → n ≤ 2 ^ (8 * w) →
      (Primitive.get_encoding_for_int_range n).byteWidth ≤ w) ∧
    (∀ n : Nat, 2 ^ 64 < n → Primitive.get_encoding_for_int_range n = .v64) ∧
    (∀ i : Nat, i < 300 → ∃ bs, enum_serialize 300 i = .ok bs ∧ bs.length = 2) ∧
    (∀ i : Nat, i < 5 → ∃ bs, enum_serialize 5 i = .ok bs ∧ bs.length = 1) := by
  have h8 : (1 : Nat) <<< 8 = 2 ^ 8 := by decide
  have h16 : (1 : Nat) <<< 16 = 2 ^ 16 := by decide
  have h32 : (1 : Nat) <<< 32 = 2 ^ 32 := by decide
  have h64 : (1 : Nat) <<< 64 = 2 ^ 64 := by decide
  refine ⟨?_, ?_, ?_, ?_, ?_⟩
  · intro n hn
    rw [Primitive.get_encoding_for_int_range]
    simp only [h8, h16, h32, h64]
    by_cases c8 : n ≤ 2 ^ 8
    · rw [if_pos c8]
      simpa [PrimFormat.byteWidth] using c8
    · rw [if_neg c8]
      by_cases c16 : n ≤ 2 ^ 16
      · rw [if_pos c16]
        simpa [PrimFormat.byteWidth] using c16
      · rw [if_neg c16]
        by_cases c32 : n ≤ 2 ^ 32
        · rw [if_pos c32]
          simpa [PrimFormat.byteWidth] using c32
        · rw [if_neg c32, if_pos hn]
          simpa [PrimFormat.byteWidth] using hn
  · intro n w hw hn
    rw [Primitive.get_encoding_for_int_range]
    simp only [h8, h16, h32, h64]
    have hple : ∀ a b : Nat, a ≤ b → (2 : Nat) ^ a ≤ 2 ^ b := fun a b hab =>
      Nat.pow_le_pow_right (by norm_num) hab
    fin_cases hw
    · rw [if_pos (le_trans hn (by norm_num))]
      simp [PrimFormat.byteWidth]
    · by_cases c8 : n ≤ 2 ^ 8
      · rw [if_pos c8]
        simp [PrimFormat.byteWidth]
      · rw [if_neg c8, if_pos (le_trans hn (by norm_num))]
        simp [PrimFormat.byteWidth]
    · by_cases c8 : n ≤ 2 ^ 8
      · rw [if_pos c8]
        simp [PrimFormat.byteWidth]
      · rw [if_neg c8]
        by_cases c16 : n ≤ 2 ^ 16
        · rw [if_pos c16]
          simp [PrimFormat.byteWidth]
        · rw [if_neg c16, if_pos (le_trans hn (by norm_num))]
          simp [PrimFormat.byteWidth]
    · by_cases c8 : n ≤ 2 ^ 8
      · rw [if_pos c8]
        simp [PrimFormat.byteWidth]
      · rw [if_neg c8]
        by_cases c16 : n ≤ 2 ^ 16
        · rw [if_pos c16]
          simp [PrimFormat.byteWidth]
        · rw [if_neg c16]
          by_cases c32 : n ≤ 2 ^ 32
          · rw [if_pos c32]
            simp [PrimFormat.byteWidth]
          · rw [if_neg c32, if_pos (le_trans hn (by norm_num))]
            simp [PrimFormat.byteWidth]
  · intro n hn
    rw [Primitive.get_encoding_for_int_range]
    simp only [h8, h16, h32, h64]
    rw [if_neg (by omega), if_neg (by omega), if_neg (by omega), if_neg (by omega)]
  · intro i hi
    have henc : Primitive.get_encoding_for_int_range 300 = .u16 := by decide
    have hrange : (0 : Int) ≤ (i : Int) ∧ (i : Int) < 2 ^ (8 * 2) :=
      ⟨Int.natCast_nonneg i, by exact_mod_cast (by omega : i < 65536)⟩
    refine ⟨to_bytes_le 2 ((i : Int)).toNat, ?_, to_bytes_le_length 2 _⟩
    simp [enum_serialize, henc, Primitive.serialize, Primitive.packUnsigned,
      PyValue.packInt, hrange.1, hrange.2]
    omega
  · intro i hi
    have henc : Primitive.get_encoding_for_int_range 5 = .u8 := by decide
    have hrange : (0 : Int) ≤ (i : Int) ∧ (i : Int) < 2 ^ (8 * 1) :=
      ⟨Int.natCast_nonneg i, by exact_mod_cast (by omega : i < 256)⟩
    refine ⟨to_bytes_le 1 ((i : Int)).toNat, ?_, to_bytes_le_length 1 _⟩
    simp [enum_serialize, henc, Primitive.serialize, Primitive.packUnsigned,
      PyValue.packInt, hrange.1, hrange.2]
    omega

/-- Witness for the amended C8 at concrete inputs: 300 needs a two-byte
width, 65536 fits u16, 2^64 + 1 falls back to v64, and the ordinals 7 of a
300-variant enum and 3 of a 5-variant enum take 2 and 1 bytes. -/
theorem C8_cardinality_width_witness :
    ((300 : Nat) ≤ 2 ^ 64 ∧
      (300 : Nat) ≤ 2 ^ (8 * (Primitive.get_encoding_for_int_range 300).byteWidth)) ∧
    ((2 : Nat) ∈ [1, 2, 4, 8] ∧ (300 : Nat) ≤ 2 ^ (8 * 2) ∧
      (Primitive.get_encoding_for_int_range 300).byteWidth ≤ 2) ∧
    (2 ^ 64 < 2 ^ 64 + 1 ∧ Primitive.get_encoding_for_int_range (2 ^ 64 + 1) = .v64) ∧
    ((7 : Nat) < 300 ∧ ∃ bs, enum_serialize 300 7 = .ok bs ∧ bs.length = 2) ∧
    ((3 : Nat) < 5 ∧ ∃ bs, enum_serialize 5 3 = .ok bs ∧ bs.length = 1) :=
  ⟨⟨by decide, C8_cardinality_width.1 300 (by decide)⟩,
   ⟨by decide, by decide, C8_cardinality_width.2.1 300 2 (by decide) (by decide)⟩,
   ⟨by omega, C8_cardinality_width.2.2.1 (2 ^ 64 + 1) (by omega)⟩,
   ⟨by decide, C8_cardinality_width.2.2.2.1 7 (by decide)⟩,
   ⟨by decide, C8_cardinality_width.2.2.2.2 3 (by decide)⟩⟩

/-- C9: every embedded primitive format except void begins its decode with
a read, and on a Decoder-wrapped source that read raises AttributeError
(the Decoder class defines no read method), which nothing catches; hence
the package-root loads raises on the same input that the BytesIO-based
entry loads decodes successfully. -/
theorem C9_root_loads_broken :
    (∀ f : PrimFormat, f ≠ .void → ∀ data idx,
      (Primitive.deserialize (.decoder data idx) f).1 = .error .attributeError) ∧
    (Root.loads [7] .pyInt).1 = .error .attributeError ∧
    (Entry.loads [7] .pyInt).1 = .ok (.int 7) := by
  refine ⟨?_, by decide, by decide⟩
  intro f hf data idx
  cases f <;>
    simp_all [Primitive.deserialize, Primitive.deserializeRaw, Primitive.readUnsigned,
      Primitive.readSigned, Primitive.readVlqValue, Primitive.readVlqSignedValue,
      read_bytes, read_vlq_sized, read_vlq, read_vlq_go, read_vlq_signed,
      read_nt_bytes, read_nt_bytes_go, Source.read, Source.remaining]

/-- Witness for C9: the plain varint format v8 is not void, and decoding it
through a Decoder-wrapped source raises AttributeError. -/
theorem C9_root_loads_broken_witness :
    PrimFormat.v8 ≠ .void ∧
    (Primitive.deserialize (.decoder [7] 0) .v8).1 = .error .attributeError :=
  ⟨by decide, C9_root_loads_broken.1 .v8 (by decide) [7] 0⟩

/-- C10 (corrected): for a Flag with 65 members the ordinal encoding is
v64, so the empty flag value serializes as the single plain-varint byte
0x00 but deserialization reads the sized layout and fails with
DeserializationError — not the claimed TypeError. -/
theorem C10_empty_flag_counterexample :
    flag_serialize (List.replicate 65 false) = .ok [0] ∧
    (flag_deserialize 65 (.buffer [0] 0)).1 = .error .deserializationError ∧
    PyError.deserializationError ≠ .typeError :=
  ⟨by decide, by decide, by decide⟩

/-- C10 amended: for a Flag with at most 64 members (ordinal formats
u8/u16/u32/u64, which round-trip the wire integer 0), encoding the empty
flag value succeeds, and decoding those bytes reduces an empty variant
list with functools.reduce and no initial value, raising TypeError. -/
theorem C10_empty_flag_type_error :
    ∀ k : Nat, k < 65 →
      flag_serialize (List.replicate k false) =
        .ok (List.replicate (Primitive.get_encoding_for_int_range (2 ^ k)).byteWidth 0) ∧
      (flag_deserialize k (.buffer
        (List.replicate (Primitive.get_encoding_for_int_range (2 ^ k)).byteWidth 0) 0)).1 =
        .error .typeError := by
  decide

/-! Helper lemmas about the struct field table. -/

lemma lookup_eq_none_of_not_mem (k : Nat) (l : List (Nat × PyValue))
    (h : k ∉ l.map Prod.fst) : l.lookup k = Option.none := by
  induction l with
  | nil => rfl
  | cons p rest ih =>
    match p with
    | (a, b) =>
      rw [List.lookup_cons]
      simp only [List.map_cons, List.mem_cons] at h
      push_neg at h
      have hne : (k == a) = false := by
        simp only [beq_eq_false_iff_ne, ne_eq]
        exact h.1
      rw [hne]
      exact ih h.2

/-- Every name in the decoded field_values dictionary is one of the
declared field names. -/
lemma struct_deserialize_names (fields : List FieldSpec) :
    ∀ s fv s₁, struct_deserialize fields s = (.ok fv, s₁) →
      ∀ p ∈ fv, p.1 ∈ fields.map FieldSpec.name := by
  induction fields with
  | nil =>
    intro s fv s₁ h p hp
    rw [struct_deserialize] at h
    injection h with h1 h2
    injection h1 with h1
    rw [← h1] at hp
    simp at hp
  | cons f rest ih =>
    intro s fv s₁ h p hp
    rw [struct_deserialize] at h
    by_cases hf : f.serialize
    · rw [if_pos hf] at h
      split at h
      · rename_i v s' heq
        split at h
        · rename_i fv' s₂ hd
          simp only [Prod.mk.injEq, Except.ok.injEq] at h
          rw [← h.1] at hp
          rcases List.mem_cons.mp hp with rfl | hp'
          · simp
          · simp only [List.map_cons, List.mem_cons]
            exact Or.inr (ih s' fv' s₂ hd p hp')
        · simp at h
      · simp at h
    · rw [if_neg hf] at h
      have hstep : ∀ dv fv₂,
          (match struct_deserialize rest s with
            | (.ok fv₀, s₂) => ((.ok ((f.name, dv) :: fv₀) :
                Except PyError (List (Nat × PyValue))), s₂)
            | (.error e, s₂) => (.error e, s₂)) = (.ok fv₂, s₁) →
          ∀ q ∈ fv₂, q.1 ∈ (f :: rest).map FieldSpec.name := by
        intro dv fv₂ h₂ q hq
        rcases hd : struct_deserialize rest s with ⟨r₂, s₂⟩
        rw [hd] at h₂
        cases r₂ with
        | error e => simp at h₂
        | ok fv' =>
          simp only [Prod.mk.injEq, Except.ok.injEq] at h₂
          rw [← h₂.1] at hq
          rcases List.mem_cons.mp hq with rfl | hq'
          · simp
          · simp only [List.map_cons, List.mem_cons]
            exact Or.inr (ih s fv' s₂ (by rw [hd]) q hq')
      cases hdef : f.default with
      | some dv =>
        rw [hdef] at h
        exact hstep dv fv h p hp
      | none =>
        rw [hdef] at h
        cases hfac : f.default_factory with
        | some dv =>
          rw [hfac] at h
          exact hstep dv fv h p hp
        | none =>
          rw [hfac] at h
          simp only [List.map_cons, List.mem_cons]
          exact Or.inr (ih s fv s₁ h p hp)

/-- Output of the registered struct encoder is exactly the encoding of the
fields whose serialize flag is set: skipped fields are absent. -/
lemma struct_serialize_filter (fields : List FieldSpec) (inst : Nat → PyValue) :
    struct_serialize fields inst = struct_serialize (fields.filter (·.serialize)) inst := by
  induction fields with
  | nil => rfl
  | cons f rest ih =>
    by_cases h : f.serialize
    · simp [struct_serialize, List.filter_cons, h, ih]
    · simp [struct_serialize, List.filter_cons, h, ih]

/-- The encoded bytes do not depend on the values held by skipped fields. -/
lemma struct_serialize_congr (fields : List FieldSpec) (inst inst' : Nat → PyValue)
    (h : ∀ f ∈ fields, f.serialize = true → inst f.name = inst' f.name) :
    struct_serialize fields inst = struct_serialize fields inst' := by
  induction fields with
  | nil => rfl
  | cons f rest ih =>
    have hrest : ∀ g ∈ rest, g.serialize = true → inst g.name = inst' g.name :=
      fun g hg => h g (List.mem_cons_of_mem f hg)
    by_cases hf : f.serialize
    · have hv := h f (List.mem_cons_self f rest) hf
      simp [struct_serialize, hf, hv, ih hrest]
    · simp [struct_serialize, hf, ih hrest]

/-- Decoding a struct assigns a skipped field its declared default, or the
default_factory result when no default is declared, independently of the
stream contents. -/
lemma struct_deserialize_skipped (fields : List FieldSpec) :
    ∀ f s fv s₁, f ∈ fields → f.serialize = false →
      (fields.map FieldSpec.name).Nodup →
      struct_deserialize fields s = (.ok fv, s₁) →
      fv.lookup f.name = (f.default <|> f.default_factory) := by
  induction fields with
  | nil =>
    intro f s fv s₁ hmem
    simp at hmem
  | cons g rest ih =>
    intro f s fv s₁ hmem hser hnodup h
    rw [List.map_cons, List.nodup_cons] at hnodup
    obtain ⟨hgnotin, hnodup'⟩ := hnodup
    rw [struct_deserialize] at h
    rcases List.mem_cons.mp hmem with rfl | hmem'
    · rw [if_neg (by simp [hser])] at h
      have hstep : ∀ dv fv₂,
          (match struct_deserialize rest s with
            | (.ok fv₀, s₂) => ((.ok ((f.name, dv) :: fv₀) :
                Except PyError (List (Nat × PyValue))), s₂)
            | (.error e, s₂) => (.error e, s₂)) = (.ok fv₂, s₁) →
          fv₂.lookup f.name = some dv := by
        intro dv fv₂ h₂
        rcases hd : struct_deserialize rest s with ⟨r₂, s₂⟩
        rw [hd] at h₂
        cases r₂ with
        | error e => simp at h₂
        | ok fv' =>
          simp only [Prod.mk.injEq, Except.ok.injEq] at h₂
          rw [← h₂.1, List.lookup_cons]
          simp
      cases hdef : f.default with
      | some dv =>
        rw [hdef] at h
        rw [hstep dv fv h]
        rfl
      | none =>
        rw [hdef] at h
        cases hfac : f.default_factory with
        | some dv =>
          rw [hfac] at h
          rw [hstep dv fv h]
          rfl
        | none =>
          rw [hfac] at h
          have hnames := struct_deserialize_names rest s fv s₁ h
          have hnot : f.name ∉ fv.map Prod.fst := by
            intro hin
            rcases List.mem_map.mp hin with ⟨p, hp, hpe⟩
            exact hgnotin (hpe ▸ hnames p hp)
          rw [lookup_eq_none_of_not_mem _ _ hnot]
          rfl
    · have hfname : (f.name == g.name) = false := by
        simp only [beq_eq_false_iff_ne, ne_eq]
        intro he
        exact hgnotin (he ▸ List.mem_map.mpr ⟨f, hmem', rfl⟩)
      by_cases hg : g.serialize
      · rw [if_pos hg] at h
        split at h
        · rename_i v s' heq
          split at h
          · rename_i fv' s₂ hd
            simp only [Prod.mk.injEq, Except.ok.injEq] at h
            rw [← h.1, List.lookup_cons, hfname]
            exact ih f s' fv' s₂ hmem' hser hnodup' (by rw [hd, h.2])
          · simp at h
        · simp at h
      · rw [if_neg hg] at h
        have hstep : ∀ dv fv₂,
            (match struct_deserialize rest s with
              | (.ok fv₀, s₂) => ((.ok ((g.name, dv) :: fv₀) :
                  Except PyError (List (Nat × PyValue))), s₂)
              | (.error e, s₂) => (.error e, s₂)) = (.ok fv₂, s₁) →
            fv₂.lookup f.name = (f.default <|> f.default_factory) := by
          intro dv fv₂ h₂
          rcases hd : struct_deserialize rest s with ⟨r₂, s₂⟩
          rw [hd] at h₂
          cases r₂ with
          | error e => simp at h₂
          | ok fv' =>
            simp only [Prod.mk.injEq, Except.ok.injEq] at h₂
            rw [← h₂.1, List.lookup_cons, hfname]
            exact ih f s fv' s₂ hmem' hser hnodup' (by rw [hd, h₂.2])
        cases hdef : g.default with
        | some dv =>
          rw [hdef] at h
          exact hstep dv fv h
        | none =>
          rw [hdef] at h
          cases hfac : g.default_factory with
          | some dv =>
            rw [hfac] at h
            exact hstep dv fv h
          | none =>
            rw [hfac] at h
            exact ih f s fv s₁ hmem' hser hnodup' h

/-- C7: a dataclass field registered with serialize set to false
contributes no bytes to the encoded output (the output equals that of the
serialized-fields-only table and is unchanged by any change to skipped
fields' values); decoding always assigns such a field its declared default,
or its default_factory result when no default is declared, regardless of
the stream; and registering a table containing a skipped field with
neither default nor default_factory raises ValueError at registration
time. -/
theorem C7_skip_with_default :
    (∀ (fields : List FieldSpec) (inst : Nat → PyValue),
      struct_serialize fields inst = struct_serialize (fields.filter (·.serialize)) inst) ∧
    (∀ (fields : List FieldSpec) (inst inst' : Nat → PyValue),
      (∀ f ∈ fields, f.serialize = true → inst f.name = inst' f.name) →
      struct_serialize fields inst = struct_serialize fields inst') ∧
    (∀ (fields : List FieldSpec) (f : FieldSpec) (s : Source)
        (fv : List (Nat × PyValue)) (s₁ : Source), f ∈ fields → f.serialize = false →
      (fields.map FieldSpec.name).Nodup →
      struct_deserialize fields s = (.ok fv, s₁) →
      fv.lookup f.name = (f.default <|> f.default_factory)) ∧
    (∀ (fields : List FieldSpec) (f : FieldSpec), f ∈ fields → f.serialize = false →
      f.default = Option.none → f.default_factory = Option.none →
      class_serializable_check fields = .error .valueError) := by
  refine ⟨struct_serialize_filter, struct_serialize_congr,
    fun fields f s fv s₁ h1 h2 h3 h4 => struct_deserialize_skipped fields f s fv s₁ h1 h2 h3 h4,
    ?_⟩
  intro fields f hmem hser hdef hfac
  rw [class_serializable_check,
    if_pos (List.any_eq_true.mpr ⟨f, hmem, by simp [hser, hdef, hfac]⟩)]

/-- Example field table for the C7 witness: field 0 is serialized, field 1
is skipped with declared default 16. -/
def sampleFields : List FieldSpec :=
  [⟨0, .pyInt, true, Option.none, Option.none⟩,
   ⟨1, .pyInt, false, some (.int 16), Option.none⟩]

/-- Instance of the sample table holding 4 in field 0 and 32 in field 1. -/
def sampleInst : Nat → PyValue :=
  fun name => if name = 0 then .int 4 else .int 32

/-- Instance of the sample table agreeing with sampleInst on the serialized
field but holding a different value in the skipped field. -/
def sampleInst' : Nat → PyValue :=
  fun name => if name = 0 then .int 4 else .int 99

/-- Field table whose only field is skipped and has no default. -/
def badFields : List FieldSpec :=
  [⟨1, .pyInt, false, Option.none, Option.none⟩]

/-- Witness for C7 on the sample tables: the skipped field changes neither
the bytes nor the decode result, decode restores its default 16, and the
no-default table is rejected at registration. -/
theorem C7_skip_with_default_witness :
    (struct_serialize sampleFields sampleInst =
      struct_serialize (sampleFields.filter (·.serialize)) sampleInst) ∧
    (struct_serialize sampleFields sampleInst = struct_serialize sampleFields sampleInst') ∧
    ((⟨1, .pyInt, false, some (.int 16), Option.none⟩ : FieldSpec) ∈ sampleFields ∧
      (sampleFields.map FieldSpec.name).Nodup ∧
      struct_deserialize sampleFields (.buffer [4] 0) =
        (.ok [(0, .int 4), (1, .int 16)], .buffer [4] 1) ∧
      ([(0, PyValue.int 4), (1, PyValue.int 16)] : List (Nat × PyValue)).lookup 1 =
        some (.int 16)) ∧
    ((⟨1, .pyInt, false, Option.none, Option.none⟩ : FieldSpec) ∈ badFields ∧
      class_serializable_check badFields = .error .valueError) := by
  refine ⟨C7_skip_with_default.1 sampleFields sampleInst, ?_, ⟨?_, by decide, by decide, ?_⟩,
    ⟨?_, ?_⟩⟩
  · refine C7_skip_with_default.2.1 sampleFields sampleInst sampleInst' ?_
    intro f hf hser
    simp only [sampleFields, List.mem_cons, List.mem_singleton] at hf
    rcases hf with rfl | rfl | h
    · rfl
    · simp at hser
    · simp at h
  · simp [sampleFields]
  · have h := C7_skip_with_default.2.2.1 sampleFields
      ⟨1, .pyInt, false, some (.int 16), Option.none⟩ (.buffer [4] 0)
      [(0, .int 4), (1, .int 16)] (.buffer [4] 1)
      (by simp [sampleFields]) rfl (by decide) (by decide)
    simpa using h
  · simp [badFields]
  · exact C7_skip_with_default.2.2.2 badFields ⟨1, .pyInt, false, Option.none, Option.none⟩
      (by simp [badFields]) rfl rfl rfl

/-- Witness for the amended C10 at a three-member flag: the empty value
encodes as the single byte 0x00 and decoding it raises TypeError. -/
theorem C10_empty_flag_type_error_witness :
    (3 : Nat) < 65 ∧
    (flag_serialize (List.replicate 3 false) =
        .ok (List.replicate (Primitive.get_encoding_for_int_range (2 ^ 3)).byteWidth 0) ∧
      (flag_deserialize 3 (.buffer
        (List.replicate (Primitive.get_encoding_for_int_range (2 ^ 3)).byteWidth 0) 0)).1 =
        .error .typeError) :=
  ⟨by decide, C10_empty_flag_type_error 3 (by decide)⟩

end Comserde
